import Mathlib

/-!
# Verification of `project1`: the `dot` vector dot product and its harness

The development embeds three C translation units:

* `dot.c`          : `dot`, a multiply-accumulate loop over two `uint32_t` arrays;
* `dot_harness.c`  : `main`, which reads a length and two arrays and prints `dot`;
* `umul_harness.c` : `main`, which reads two numbers and prints `umul`.

Conventions of the embedding.

* A `uint32_t` value is a `Nat`; every `uint32_t` operation reduces modulo `2 ^ 32`
  explicitly.  A `size_t` value is a `Nat` (taken to be 64 bits wide where a width
  is needed).
* `umul` is declared `extern` and has no body in the repository, so it is a
  parameter `umul : Nat → Nat → Nat` of every definition that calls it.
* An array is a `List Nat`; `A[i]` is `A[i]?`, so a read or write outside the array
  makes the computation return `none`.
* The calls a function makes to `umul` (resp. `dot`) are recorded in a list, in
  program order, so that "is invoked" is a statement about data.
* Standard input is a list of `Token`s.  `scanf` converts as the C library does:
  through `strtoul`, which saturates at `ULONG_MAX` and negates after a `-`, then
  by storing the low bits that fit the variable.
-/

namespace Project1

/-! ## `dot.c` -/

/-- The state `dot` leaves behind: the accumulator `dot_product` and the arguments
of every call to `umul`, oldest first. -/
structure DotRun where
  dot_product : Nat
  calls : List (Nat × Nat)
deriving DecidableEq

/-- The loop `for (size_t i = 0; i < len; i++) dot_product += umul(A[i], B[i]);`
started in the state `(i, dot_product)`, followed by `return dot_product`.
The `+=` is on `uint32_t`, hence the reduction modulo `2 ^ 32`. -/
def dotLoop (umul : Nat → Nat → Nat) (A B : List Nat) (len : Nat)
    (i dot_product : Nat) (calls : List (Nat × Nat)) : Option DotRun :=
  if i < len then
    match A[i]?, B[i]? with
    | some a, some b =>
        dotLoop umul A B len (i + 1) ((dot_product + umul a b) % 2 ^ 32) (calls ++ [(a, b)])
    | _, _ => none
  else
    some ⟨dot_product, calls⟩
termination_by len - i

/-- The body of `dot` with its record of `umul` calls: `uint32_t dot_product = 0;`
then the loop from `i = 0`. -/
def dotRun (umul : Nat → Nat → Nat) (A B : List Nat) (len : Nat) : Option DotRun :=
  dotLoop umul A B len 0 0 []

/-- The function `uint32_t dot(const uint32_t *A, const uint32_t *B, size_t len)`:
the value it returns. -/
def dot (umul : Nat → Nat → Nat) (A B : List Nat) (len : Nat) : Option Nat :=
  (dotRun umul A B len).map DotRun.dot_product

/-- The contract the specification puts on the external `umul`:
the product modulo `2 ^ 32`. -/
def umul32 (x y : Nat) : Nat := (x * y) % 2 ^ 32

/-! ## Standard input and output -/

/-- What an unsigned decimal `scanf` conversion finds after the white space it
skips, one item at a time:

* `num n`  : decimal digits of value `n`, with or without a `+` before them;
* `neg n`  : a `-` and then decimal digits of value `n`;
* `sign`   : a `+` or `-` that no digit follows;
* `junk`   : text that starts with neither a digit nor a sign.

Digits that run into other text, as in `12abc`, are a `num` and then a `junk`. -/
inductive Token where
  | num (n : Nat)
  | neg (n : Nat)
  | sign
  | junk
deriving DecidableEq

/-- The `unsigned long` (64 bits) that `strtoul`, which `scanf` converts with, makes
of an item: a magnitude above `ULONG_MAX = 2 ^ 64 - 1` gives `ULONG_MAX`, and a
magnitude in range after a `-` is negated modulo `2 ^ 64`.  An item without digits
is no number. -/
def strtoul : Token → Option Nat
  | Token.num n => some (if n < 2 ^ 64 then n else 2 ^ 64 - 1)
  | Token.neg n => some (if n < 2 ^ 64 then (2 ^ 64 - n) % 2 ^ 64 else 2 ^ 64 - 1)
  | Token.sign => none
  | Token.junk => none

/-- The conversion `scanf("%zu", &len)` on the pending input: the value assigned
(`none` when nothing is assigned) and the input left.  A numeral is consumed and
its `strtoul` value is stored in the 64-bit `size_t`.  A sign without digits is
consumed and nothing is assigned; other text stays pending and nothing is assigned;
at end of input nothing happens.  The return value of `scanf` is not modelled: no
caller in the repository looks at it. -/
def scanf_zu : List Token → Option Nat × List Token
  | [] => (none, [])
  | Token.num n :: rest => (strtoul (Token.num n), rest)
  | Token.neg n :: rest => (strtoul (Token.neg n), rest)
  | Token.sign :: rest => (none, rest)
  | Token.junk :: rest => (none, Token.junk :: rest)

/-- The conversion `scanf("%" PRIu32, &x)` on the pending input, as `scanf_zu` but
storing the `strtoul` value in a `uint32_t`, which keeps its low 32 bits. -/
def scanf_u32 : List Token → Option Nat × List Token
  | [] => (none, [])
  | Token.num n :: rest => ((strtoul (Token.num n)).map (fun v => v % 2 ^ 32), rest)
  | Token.neg n :: rest => ((strtoul (Token.neg n)).map (fun v => v % 2 ^ 32), rest)
  | Token.sign :: rest => (none, rest)
  | Token.junk :: rest => (none, Token.junk :: rest)

/-- What a run of a harness leaves behind: the exit status, everything written to
standard output, and the arguments of every call to `dot`, oldest first. -/
structure Outcome where
  status : Nat
  stdout : String
  dot_calls : List (List Nat × List Nat × Nat)
deriving DecidableEq

/-- The call `printf("%" PRIu32 "\n", result)`: the decimal digits of `result` and a
newline. -/
def printf_u32 (result : Nat) : String :=
  toString result ++ "\n"

/-! ## `dot_harness.c` -/

namespace dot_harness

/-- The capacity `#define MAXN 1024`. -/
def MAXN : Nat := 1024

/-- The loop `for (size_t i = 0; i < len; i++) scanf("%" PRIu32, &X[i]);` started at
index `i` on the array `X`: the array and the pending input when it ends.  A slot
whose conversion assigns nothing keeps its content. -/
def readLoop (X : List Nat) (len i : Nat) (pending : List Token) :
    Option (List Nat × List Token) :=
  if i < len then
    if i < X.length then
      match scanf_u32 pending with
      | (some v, rest) => readLoop (X.set i v) len (i + 1) rest
      | (none, rest) => readLoop X len (i + 1) rest
    else none
  else
    some (X, pending)
termination_by len - i

/-- The function `int main(void)` of `dot_harness.c`, run on the standard input
`pending`.  The locals `len`, `A` and `B` are declared without an initialiser:
`len0` is the content `len` starts with, and `garbageA k`, `garbageB k` are the
contents slot `k` of `A` and of `B` start with. -/
def main (umul : Nat → Nat → Nat) (len0 : Nat) (garbageA garbageB : Nat → Nat)
    (pending : List Token) : Option Outcome :=
  let (assigned, pending1) := scanf_zu pending
  let len := assigned.getD len0
  if len > MAXN then some ⟨1, "", []⟩
  else
    let A0 := (List.range MAXN).map garbageA
    let B0 := (List.range MAXN).map garbageB
    match readLoop A0 len 0 pending1 with
    | none => none
    | some (A, pending2) =>
      match readLoop B0 len 0 pending2 with
      | none => none
      | some (B, _) =>
        match dot umul A B len with
        | none => none
        | some result => some ⟨0, printf_u32 result, [(A, B, len)]⟩

end dot_harness

/-! ## `umul_harness.c` -/

/-- What a run of the `umul` harness leaves behind: the exit status, everything
written to standard output, and the arguments of every call to `umul`, oldest
first. -/
structure UmulOutcome where
  status : Nat
  stdout : String
  umul_calls : List (Nat × Nat)
deriving DecidableEq

/-- The call `scanf("%" PRIu32 " %" PRIu32 "", &x, &y)` on the pending input: the
values assigned to `x` and to `y` (`none` when nothing is assigned) and the input
left.  The two conversions run in order and the call stops at the first one that
fails, so `y` is converted only after `x` was assigned.  The white space between
the conversions is what separates two tokens. -/
def scanf_u32_u32 (pending : List Token) : Option Nat × Option Nat × List Token :=
  match scanf_u32 pending with
  | (some x, rest) =>
    match scanf_u32 rest with
    | (assigned, rest2) => (some x, assigned, rest2)
  | (none, rest) => (none, none, rest)

namespace umul_harness

/-- The function `int main(void)` of `umul_harness.c`, run on the standard input
`pending`.  The locals `x` and `y` are declared without an initialiser: `x0` and
`y0` are the contents they start with.  `umul` returns a `uint32_t`, which is stored
in `result` as it is. -/
def main (umul : Nat → Nat → Nat) (x0 y0 : Nat) (pending : List Token) : UmulOutcome :=
  let (assigned_x, assigned_y, _) := scanf_u32_u32 pending
  let x := assigned_x.getD x0
  let y := assigned_y.getD y0
  let result := umul x y
  ⟨0, printf_u32 result, [(x, y)]⟩

end umul_harness

/-! ## Vocabulary of the specification -/

/-- Wraparound addition of two 32-bit unsigned integers. -/
def wadd (x y : Nat) : Nat := (x + y) % 2 ^ 32

/-- The list `[umul(A[0], B[0]), ..., umul(A[len-1], B[len-1])]`. -/
def products (umul : Nat → Nat → Nat) (A B : List Nat) (len : Nat) : List Nat :=
  List.zipWith umul (A.take len) (B.take len)

/-- The element-wise wraparound sum of two sequences:
`(A (+) A')[i] = (A[i] + A'[i]) mod 2 ^ 32`. -/
def vadd (A A' : List Nat) : List Nat :=
  List.zipWith (fun x y => (x + y) % 2 ^ 32) A A'

/-- A way of parallelising the summation: sum a block sequentially, or cut it after
its first `k` elements, reduce the two parts and combine the two partial sums, in
either order. -/
inductive Reduction where
  | sequential : Reduction
  | combine (k : Nat) (first second : Reduction) (swapped : Bool) : Reduction
deriving DecidableEq

/-- The specification's tree reduction of partial sums: a block that is not cut is
summed by `dot`; two partial sums are combined with wraparound addition. -/
def treeDot (umul : Nat → Nat → Nat) : Reduction → List Nat → List Nat → Option Nat
  | Reduction.sequential, A, B => dot umul A B A.length
  | Reduction.combine k first second swapped, A, B =>
      match treeDot umul first (A.take k) (B.take k),
            treeDot umul second (A.drop k) (B.drop k) with
      | some x, some y => some (if swapped then (y + x) % 2 ^ 32 else (x + y) % 2 ^ 32)
      | _, _ => none

/-! ## Lemmas on the loop of `dot` -/

theorem dotLoop_eq (umul : Nat → Nat → Nat) (A B : List Nat) (len : Nat) :
    ∀ (n i acc : Nat) (calls : List (Nat × Nat)), i + n = len →
      len ≤ A.length → len ≤ B.length →
      dotLoop umul A B len i acc calls =
        some ⟨(List.zipWith umul ((A.drop i).take n) ((B.drop i).take n)).foldl wadd acc,
              calls ++ ((A.drop i).take n).zip ((B.drop i).take n)⟩ := by
  intro n
  induction n with
  | zero =>
    intro i acc calls h _ _
    rw [dotLoop]
    simp [show ¬ i < len by omega]
  | succ n ih =>
    intro i acc calls h hA hB
    have hiA : i < A.length := by omega
    have hiB : i < B.length := by omega
    rw [dotLoop]
    simp only [show i < len by omega, if_true, List.getElem?_eq_getElem hiA,
      List.getElem?_eq_getElem hiB]
    rw [ih (i + 1) _ _ (by omega) hA hB]
    rw [List.drop_eq_getElem_cons hiA, List.drop_eq_getElem_cons hiB]
    simp only [List.take_succ_cons, List.zipWith_cons_cons, List.foldl_cons,
      List.zip_cons_cons, wadd, List.append_assoc, List.singleton_append]

theorem dotRun_eq (umul : Nat → Nat → Nat) (A B : List Nat) (len : Nat)
    (hA : len ≤ A.length) (hB : len ≤ B.length) :
    dotRun umul A B len =
      some ⟨(products umul A B len).foldl wadd 0, (A.take len).zip (B.take len)⟩ := by
  unfold dotRun products
  rw [dotLoop_eq umul A B len len 0 0 [] (by omega) hA hB]
  simp

theorem dot_eq_foldl (umul : Nat → Nat → Nat) (A B : List Nat) (len : Nat)
    (hA : len ≤ A.length) (hB : len ≤ B.length) :
    dot umul A B len = some ((products umul A B len).foldl wadd 0) := by
  unfold dot
  rw [dotRun_eq umul A B len hA hB]
  rfl

theorem products_length (umul : Nat → Nat → Nat) (A B : List Nat) (len : Nat)
    (hA : len ≤ A.length) (hB : len ≤ B.length) :
    (products umul A B len).length = len := by
  simp [products, List.length_zipWith, List.length_take, hA, hB]

theorem products_eq_map_range (umul : Nat → Nat → Nat) (A B : List Nat) (len : Nat)
    (hA : len ≤ A.length) (hB : len ≤ B.length) :
    products umul A B len =
      (List.range len).map (fun i => umul (A.getD i 0) (B.getD i 0)) := by
  apply List.ext_getElem
  · simp [products_length umul A B len hA hB]
  · intro i h1 h2
    have hi : i < len := by simpa using h2
    have hiA : i < A.length := by omega
    have hiB : i < B.length := by omega
    simp [products, List.getD_eq_getElem?_getD, List.getElem?_eq_getElem hiA,
      List.getElem?_eq_getElem hiB]

theorem foldl_wadd (l : List Nat) :
    ∀ acc : Nat, acc < 2 ^ 32 → l.foldl wadd acc = (acc + l.sum) % 2 ^ 32 := by
  induction l with
  | nil =>
    intro acc h
    simp only [List.foldl_nil, List.sum_nil, Nat.add_zero]
    exact (Nat.mod_eq_of_lt h).symm
  | cons x xs ih =>
    intro acc _
    rw [List.foldl_cons, ih (wadd acc x) (Nat.mod_lt _ (by norm_num))]
    simp only [wadd, List.sum_cons]
    omega

theorem dot_eq_sum (umul : Nat → Nat → Nat) (A B : List Nat) (len : Nat)
    (hA : len ≤ A.length) (hB : len ≤ B.length) :
    dot umul A B len = some ((products umul A B len).sum % 2 ^ 32) := by
  rw [dot_eq_foldl umul A B len hA hB, foldl_wadd _ 0 (by norm_num)]
  simp

theorem sum_map_range_mod (f g : Nat → Nat) :
    ∀ len : Nat, (∀ i, i < len → f i % 2 ^ 32 = g i % 2 ^ 32) →
      ((List.range len).map f).sum % 2 ^ 32 = (∑ i ∈ Finset.range len, g i) % 2 ^ 32 := by
  intro len
  induction len with
  | zero => intro _; simp
  | succ n ih =>
    intro h
    have h1 := ih (fun i hi => h i (by omega))
    have h2 := h n (by omega)
    rw [List.range_succ, List.map_append, List.sum_append, Finset.sum_range_succ]
    simp only [List.map_cons, List.map_nil, List.sum_cons, List.sum_nil, Nat.add_zero]
    omega

theorem dot_eq_finset_sum (umul : Nat → Nat → Nat)
    (hm : ∀ x y, umul x y = (x * y) % 2 ^ 32) (A B : List Nat) (len : Nat)
    (hA : len ≤ A.length) (hB : len ≤ B.length) :
    dot umul A B len =
      some ((∑ i ∈ Finset.range len, A.getD i 0 * B.getD i 0) % 2 ^ 32) := by
  rw [dot_eq_sum umul A B len hA hB, products_eq_map_range umul A B len hA hB,
    sum_map_range_mod _ (fun i => A.getD i 0 * B.getD i 0) len]
  intro i _
  simp [hm]

theorem ofFn_getD (A : List Nat) (n : Nat) (h : A.length = n) :
    List.ofFn (fun k : Fin n => A.getD k.val 0) = A := by
  subst h
  apply List.ext_getElem
  · simp
  · intro i h1 h2
    simp [List.getD_eq_getElem?_getD, List.getElem?_eq_getElem h2]

theorem dot_ofFn (umul : Nat → Nat → Nat) (len : Nat) (a b : Fin len → Nat) :
    dot umul (List.ofFn a) (List.ofFn b) len =
      some ((List.ofFn (fun k => umul (a k) (b k))).sum % 2 ^ 32) := by
  rw [dot_eq_sum umul _ _ len (by simp) (by simp)]
  have h : products umul (List.ofFn a) (List.ofFn b) len =
      List.ofFn (fun k => umul (a k) (b k)) := by
    unfold products
    rw [List.take_of_length_le (by simp), List.take_of_length_le (by simp)]
    simp only [List.ofFn_eq_map, List.zipWith_map, List.zipWith_same]
  rw [h]

theorem products_append (umul : Nat → Nat → Nat) (A1 B1 A2 B2 : List Nat) (n1 n2 : Nat)
    (hA1 : A1.length = n1) (hB1 : B1.length = n1)
    (hA2 : A2.length = n2) (hB2 : B2.length = n2) :
    products umul (A1 ++ A2) (B1 ++ B2) (n1 + n2) =
      products umul A1 B1 n1 ++ products umul A2 B2 n2 := by
  unfold products
  rw [List.take_of_length_le (by simp [hA1, hA2]), List.take_of_length_le (by simp [hB1, hB2]),
    List.take_of_length_le (by omega), List.take_of_length_le (by omega),
    List.take_of_length_le (by omega), List.take_of_length_le (by omega)]
  exact List.zipWith_append umul A1 A2 B1 B2 (by omega)

theorem dot_append (umul : Nat → Nat → Nat) (A1 B1 A2 B2 : List Nat) (n1 n2 : Nat)
    (hA1 : A1.length = n1) (hB1 : B1.length = n1)
    (hA2 : A2.length = n2) (hB2 : B2.length = n2) :
    ∃ s1 s2, dot umul A1 B1 n1 = some s1 ∧ dot umul A2 B2 n2 = some s2 ∧
      dot umul (A1 ++ A2) (B1 ++ B2) (n1 + n2) = some ((s1 + s2) % 2 ^ 32) := by
  refine ⟨_, _, dot_eq_sum umul A1 B1 n1 (by omega) (by omega),
    dot_eq_sum umul A2 B2 n2 (by omega) (by omega), ?_⟩
  rw [dot_eq_sum umul _ _ _ (by simp [hA1, hA2]) (by simp [hB1, hB2]),
    products_append umul A1 B1 A2 B2 n1 n2 hA1 hB1 hA2 hB2, List.sum_append]
  congr 1
  omega

theorem dot_take (umul : Nat → Nat → Nat) (A B : List Nat) (len : Nat)
    (hA : len ≤ A.length) (hB : len ≤ B.length) :
    dot umul A B len = dot umul (A.take len) (B.take len) len := by
  rw [dot_eq_foldl umul A B len hA hB,
    dot_eq_foldl umul _ _ len (by simp [hA]) (by simp [hB])]
  simp only [products, List.take_take, Nat.min_self]

theorem dot_succ (umul : Nat → Nat → Nat) (A B : List Nat) (k : Nat)
    (hA : k < A.length) (hB : k < B.length) :
    ∃ acc, dot umul A B k = some acc ∧
      dot umul A B (k + 1) = some ((acc + umul (A.getD k 0) (B.getD k 0)) % 2 ^ 32) := by
  refine ⟨_, dot_eq_foldl umul A B k (by omega) (by omega), ?_⟩
  rw [dot_eq_foldl umul A B (k + 1) (by omega) (by omega),
    products_eq_map_range umul A B (k + 1) (by omega) (by omega),
    products_eq_map_range umul A B k (by omega) (by omega),
    List.range_succ, List.map_append, List.foldl_append]
  rfl

theorem dotLoop_step (umul : Nat → Nat → Nat) (A B : List Nat) (len i acc : Nat)
    (calls : List (Nat × Nat)) (hi : i < len) (hA : len ≤ A.length) (hB : len ≤ B.length) :
    dotLoop umul A B len i acc calls =
      dotLoop umul A B len (i + 1) ((acc + umul (A.getD i 0) (B.getD i 0)) % 2 ^ 32)
        (calls ++ [(A.getD i 0, B.getD i 0)]) := by
  have hiA : i < A.length := by omega
  have hiB : i < B.length := by omega
  rw [dotLoop]
  simp [hi, List.getD_eq_getElem?_getD, List.getElem?_eq_getElem hiA,
    List.getElem?_eq_getElem hiB]

theorem dotLoop_exit (umul : Nat → Nat → Nat) (A B : List Nat) (len acc : Nat)
    (calls : List (Nat × Nat)) :
    dotLoop umul A B len len acc calls = some ⟨acc, calls⟩ := by
  rw [dotLoop]
  simp

theorem treeDot_eq_dot (umul : Nat → Nat → Nat) (t : Reduction) :
    ∀ A B : List Nat, A.length = B.length → treeDot umul t A B = dot umul A B A.length := by
  induction t with
  | sequential => intro A B _; rfl
  | combine k first second swapped ih1 ih2 =>
    intro A B h
    obtain ⟨s1, s2, e1, e2, e⟩ := dot_append umul (A.take k) (B.take k) (A.drop k) (B.drop k)
      (A.take k).length (A.drop k).length rfl (by simp [h]) rfl (by simp [h])
    rw [List.take_append_drop, List.take_append_drop] at e
    have hl : (A.take k).length + (A.drop k).length = A.length := by
      rw [← List.length_append, List.take_append_drop]
    rw [hl] at e
    rw [treeDot, ih1 _ _ (by simp [h]), ih2 _ _ (by simp [h]), e1, e2, e]
    cases swapped
    · rfl
    · simp [Nat.add_comm]

/-! ## Lemmas on the harness -/

theorem strtoul_num (n : Nat) (h : n < 2 ^ 64) : strtoul (Token.num n) = some n := by
  simp only [strtoul, if_pos h]

theorem scanf_zu_num (n : Nat) (rest : List Token) (h : n < 2 ^ 64) :
    scanf_zu (Token.num n :: rest) = (some n, rest) := by
  simp only [scanf_zu, strtoul_num n h]

theorem scanf_u32_num (v : Nat) (rest : List Token) (h : v < 2 ^ 32) :
    scanf_u32 (Token.num v :: rest) = (some v, rest) := by
  simp only [scanf_u32, strtoul_num v (by omega), Option.map_some', Nat.mod_eq_of_lt h]

theorem strtoul_num_large (n : Nat) (h : 1024 < n) :
    ∃ len, strtoul (Token.num n) = some len ∧ 1024 < len := by
  by_cases h64 : n < 2 ^ 64
  · exact ⟨n, strtoul_num n h64, h⟩
  · exact ⟨2 ^ 64 - 1, by simp only [strtoul, if_neg h64], by norm_num⟩

theorem strtoul_num_le (n : Nat) : ∃ len, strtoul (Token.num n) = some len ∧ len ≤ n := by
  by_cases h64 : n < 2 ^ 64
  · exact ⟨n, strtoul_num n h64, Nat.le_refl n⟩
  · exact ⟨2 ^ 64 - 1, by simp only [strtoul, if_neg h64], by omega⟩

theorem readLoop_total (len : Nat) :
    ∀ (n : Nat) (X : List Nat) (i : Nat) (pending : List Token), i + n = len →
      len ≤ X.length →
      ∃ X1 rest, dot_harness.readLoop X len i pending = some (X1, rest) ∧
        X1.length = X.length := by
  intro n
  induction n with
  | zero =>
    intro X i pending h _
    rw [dot_harness.readLoop]
    simp [show ¬ i < len by omega]
  | succ n ih =>
    intro X i pending h hX
    rw [dot_harness.readLoop]
    simp only [show i < len by omega, show i < X.length by omega, if_true]
    cases hs : scanf_u32 pending with
    | mk assigned rest =>
      cases assigned with
      | none => exact ih X (i + 1) rest (by omega) hX
      | some v =>
        obtain ⟨X1, r1, e1, e2⟩ := ih (X.set i v) (i + 1) rest (by omega) (by simpa using hX)
        exact ⟨X1, r1, e1, by simpa using e2⟩

theorem readLoop_numerals (len : Nat) :
    ∀ (vs : List Nat) (X : List Nat) (i : Nat) (rest : List Token), i + vs.length = len →
      len ≤ X.length → (∀ v ∈ vs, v < 2 ^ 32) →
      dot_harness.readLoop X len i (vs.map Token.num ++ rest) =
        some (X.take i ++ vs ++ X.drop len, rest) := by
  intro vs
  induction vs with
  | nil =>
    intro X i rest h _ _
    have hi : i = len := by simpa using h
    rw [dot_harness.readLoop]
    simp [hi]
  | cons v vs ih =>
    intro X i rest h hX hv
    have h1 : i + 1 + vs.length = len := by simp at h; omega
    have hi : i < len := by omega
    have hiX : i < X.length := by omega
    have hv32 : v % 2 ^ 32 = v := Nat.mod_eq_of_lt (hv v (by simp))
    rw [dot_harness.readLoop]
    simp only [hi, hiX, if_true, List.map_cons, List.cons_append,
      scanf_u32_num v _ (hv v (by simp))]
    rw [ih (X.set i v) (i + 1) rest h1 (by simpa using hX)
      (fun w hw => hv w (List.mem_cons_of_mem _ hw))]
    have ht : (X.set i v).take i = X.take i := by
      apply List.ext_getElem?
      intro j
      by_cases hj : j < i
      · simp [List.getElem?_take, hj, List.getElem?_set_ne (show i ≠ j by omega)]
      · simp [List.getElem?_take, hj]
    rw [List.take_succ, ht, List.getElem?_set_self hiX, List.drop_set_of_lt v X hi]
    simp

theorem main_reject (umul : Nat → Nat → Nat) (len0 : Nat) (garbageA garbageB : Nat → Nat)
    (pending rest : List Token) (assigned : Option Nat)
    (hs : scanf_zu pending = (assigned, rest))
    (hlen : dot_harness.MAXN < assigned.getD len0) :
    dot_harness.main umul len0 garbageA garbageB pending = some ⟨1, "", []⟩ := by
  simp only [dot_harness.main, hs]
  simp [hlen]

theorem main_accept (umul : Nat → Nat → Nat) (len0 : Nat) (garbageA garbageB : Nat → Nat)
    (pending rest : List Token) (assigned : Option Nat)
    (hs : scanf_zu pending = (assigned, rest))
    (hlen : assigned.getD len0 ≤ dot_harness.MAXN) :
    ∃ A pending2 B pending3 result,
      dot_harness.readLoop ((List.range dot_harness.MAXN).map garbageA)
        (assigned.getD len0) 0 rest = some (A, pending2) ∧
      dot_harness.readLoop ((List.range dot_harness.MAXN).map garbageB)
        (assigned.getD len0) 0 pending2 = some (B, pending3) ∧
      A.length = dot_harness.MAXN ∧ B.length = dot_harness.MAXN ∧
      dot umul A B (assigned.getD len0) = some result ∧
      dot_harness.main umul len0 garbageA garbageB pending =
        some ⟨0, printf_u32 result, [(A, B, assigned.getD len0)]⟩ := by
  obtain ⟨A, p2, eA, lA⟩ := readLoop_total (assigned.getD len0) (assigned.getD len0)
    ((List.range dot_harness.MAXN).map garbageA) 0 rest (by omega) (by simpa using hlen)
  obtain ⟨B, p3, eB, lB⟩ := readLoop_total (assigned.getD len0) (assigned.getD len0)
    ((List.range dot_harness.MAXN).map garbageB) 0 p2 (by omega) (by simpa using hlen)
  have lA1 : A.length = dot_harness.MAXN := by simpa using lA
  have lB1 : B.length = dot_harness.MAXN := by simpa using lB
  have hd := dot_eq_foldl umul A B (assigned.getD len0) (by omega) (by omega)
  refine ⟨A, p2, B, p3, _, eA, eB, lA1, lB1, hd, ?_⟩
  simp only [dot_harness.main, hs]
  simp [Nat.not_lt.mpr hlen, eA, eB, hd]

theorem main_numerals (umul : Nat → Nat → Nat) (len0 : Nat) (garbageA garbageB : Nat → Nat)
    (len : Nat) (as bs : List Nat) (hlen : len ≤ dot_harness.MAXN)
    (has : as.length = len) (hbs : bs.length = len)
    (ha32 : ∀ a ∈ as, a < 2 ^ 32) (hb32 : ∀ b ∈ bs, b < 2 ^ 32) :
    ∃ result, dot umul as bs len = some result ∧
      dot_harness.main umul len0 garbageA garbageB
          (Token.num len :: (as.map Token.num ++ bs.map Token.num)) =
        some ⟨0, printf_u32 result,
          [(as ++ ((List.range dot_harness.MAXN).map garbageA).drop len,
            bs ++ ((List.range dot_harness.MAXN).map garbageB).drop len, len)]⟩ := by
  have hM : dot_harness.MAXN = 1024 := rfl
  have hmod : len % 2 ^ 64 = len := Nat.mod_eq_of_lt (by omega)
  have eA := readLoop_numerals len as ((List.range dot_harness.MAXN).map garbageA) 0
    (bs.map Token.num) (by omega) (by simpa using hlen) ha32
  have eB := readLoop_numerals len bs ((List.range dot_harness.MAXN).map garbageB) 0
    [] (by omega) (by simpa using hlen) hb32
  rw [List.append_nil] at eB
  simp only [List.take_zero, List.nil_append] at eA eB
  have hd := dot_eq_foldl umul as bs len (by omega) (by omega)
  have hd2 : dot umul (as ++ ((List.range dot_harness.MAXN).map garbageA).drop len)
      (bs ++ ((List.range dot_harness.MAXN).map garbageB).drop len) len =
      some ((products umul as bs len).foldl wadd 0) := by
    rw [dot_take umul _ _ len (by simp [has]) (by simp [hbs]),
      List.take_left' has, List.take_left' hbs, hd]
  refine ⟨_, hd, ?_⟩
  simp only [dot_harness.main, scanf_zu_num len _ (show len < 2 ^ 64 by omega),
    Option.getD_some]
  simp [Nat.not_lt.mpr hlen, eA, eB, hd2]

theorem readLoop_stuck (len : Nat) (pending : List Token)
    (hs : scanf_u32 pending = (none, pending)) :
    ∀ (n : Nat) (X : List Nat) (i : Nat), i + n = len → len ≤ X.length →
      dot_harness.readLoop X len i pending = some (X, pending) := by
  intro n
  induction n with
  | zero =>
    intro X i h _
    rw [dot_harness.readLoop]
    simp [show ¬ i < len by omega]
  | succ n ih =>
    intro X i h hX
    rw [dot_harness.readLoop]
    simp only [show i < len by omega, show i < X.length by omega, if_true, hs]
    exact ih X (i + 1) (by omega) hX

theorem main_stuck (umul : Nat → Nat → Nat) (len0 : Nat) (garbageA garbageB : Nat → Nat)
    (pending rest : List Token) (len result : Nat)
    (hz : scanf_zu pending = (some len, rest)) (hlen : len ≤ dot_harness.MAXN)
    (hs : scanf_u32 rest = (none, rest))
    (hd : dot umul ((List.range dot_harness.MAXN).map garbageA)
      ((List.range dot_harness.MAXN).map garbageB) len = some result) :
    dot_harness.main umul len0 garbageA garbageB pending =
      some ⟨0, printf_u32 result, [((List.range dot_harness.MAXN).map garbageA,
        (List.range dot_harness.MAXN).map garbageB, len)]⟩ := by
  have eA := readLoop_stuck len rest hs len ((List.range dot_harness.MAXN).map garbageA) 0
    (by omega) (by simpa using hlen)
  have eB := readLoop_stuck len rest hs len ((List.range dot_harness.MAXN).map garbageB) 0
    (by omega) (by simpa using hlen)
  simp only [dot_harness.main, hz]
  simp [Nat.not_lt.mpr hlen, eA, eB, hd]

theorem dot_one (umul : Nat → Nat → Nat) (A B : List Nat)
    (hA : 1 ≤ A.length) (hB : 1 ≤ B.length) :
    dot umul A B 1 = some (umul (A.getD 0 0) (B.getD 0 0) % 2 ^ 32) := by
  rw [dot_eq_sum umul A B 1 hA hB, products_eq_map_range umul A B 1 hA hB]
  simp [List.range_succ]

theorem main_of_parts (umul : Nat → Nat → Nat) (len0 : Nat) (garbageA garbageB : Nat → Nat)
    (pending rest pending2 pending3 : List Token) (len result : Nat) (A B : List Nat)
    (hz : scanf_zu pending = (some len, rest)) (hlen : len ≤ dot_harness.MAXN)
    (eA : dot_harness.readLoop ((List.range dot_harness.MAXN).map garbageA) len 0 rest =
      some (A, pending2))
    (eB : dot_harness.readLoop ((List.range dot_harness.MAXN).map garbageB) len 0 pending2 =
      some (B, pending3))
    (hd : dot umul A B len = some result) :
    dot_harness.main umul len0 garbageA garbageB pending =
      some ⟨0, printf_u32 result, [(A, B, len)]⟩ := by
  simp only [dot_harness.main, hz]
  simp [Nat.not_lt.mpr hlen, eA, eB, hd]

theorem readLoop_one_assigned (X : List Nat) (pending rest : List Token) (v : Nat)
    (hX : 0 < X.length) (hs : scanf_u32 pending = (some v, rest)) :
    dot_harness.readLoop X 1 0 pending = some (X.set 0 v, rest) := by
  rw [dot_harness.readLoop]
  simp only [Nat.lt_add_one, hX, if_true, hs]
  rw [dot_harness.readLoop]
  simp

theorem readLoop_one_unassigned (X : List Nat) (pending rest : List Token)
    (hX : 0 < X.length) (hs : scanf_u32 pending = (none, rest)) :
    dot_harness.readLoop X 1 0 pending = some (X, rest) := by
  rw [dot_harness.readLoop]
  simp only [Nat.lt_add_one, hX, if_true, hs]
  rw [dot_harness.readLoop]
  simp

/-! ## Sample runs of the `dot` harness on input the C library converts specially -/

/-- On the input `1 18446744073709551616 5` the first element is out of range:
`strtoul` gives `ULONG_MAX`, `A[0]` keeps its low 32 bits `0xFFFFFFFF`, and the
harness prints `0xFFFFFFFF * 5 mod 2 ^ 32`. -/
theorem main_run_saturated_element :
    dot_harness.main umul32 0 (fun _ => 3) (fun _ => 5)
        [Token.num 1, Token.num (2 ^ 64), Token.num 5] =
      some ⟨0, "4294967291\n",
        [(((List.range dot_harness.MAXN).map (fun _ => 3)).set 0 0xFFFFFFFF,
          ((List.range dot_harness.MAXN).map (fun _ => 5)).set 0 5, 1)]⟩ := by
  have hpos : 0 < dot_harness.MAXN := by decide
  have hd : dot umul32 (((List.range dot_harness.MAXN).map (fun _ => 3)).set 0 0xFFFFFFFF)
      (((List.range dot_harness.MAXN).map (fun _ => 5)).set 0 5) 1 = some 4294967291 := by
    rw [dot_one umul32 _ _ (by simpa using hpos) (by simpa using hpos)]
    simp [hpos, umul32]
  have eA := readLoop_one_assigned ((List.range dot_harness.MAXN).map (fun _ => 3))
    [Token.num (2 ^ 64), Token.num 5] [Token.num 5] 0xFFFFFFFF (by simpa using hpos)
    (by simp [scanf_u32, strtoul])
  have eB := readLoop_one_assigned ((List.range dot_harness.MAXN).map (fun _ => 5))
    [Token.num 5] [] 5 (by simpa using hpos) rfl
  exact main_of_parts umul32 0 _ _ _ _ _ _ 1 _ _ _ (scanf_zu_num 1 _ (by norm_num))
    (by decide) eA eB hd

/-- On the input `1 - 4` the conversion for `A[0]` consumes the lone sign and assigns
nothing, `B[0]` becomes `4`, and the harness prints `3 * 4` from what `A[0]` held. -/
theorem main_run_lone_sign :
    dot_harness.main umul32 0 (fun _ => 3) (fun _ => 5)
        [Token.num 1, Token.sign, Token.num 4] =
      some ⟨0, "12\n",
        [((List.range dot_harness.MAXN).map (fun _ => 3),
          ((List.range dot_harness.MAXN).map (fun _ => 5)).set 0 4, 1)]⟩ := by
  have hpos : 0 < dot_harness.MAXN := by decide
  have hd : dot umul32 ((List.range dot_harness.MAXN).map (fun _ => 3))
      (((List.range dot_harness.MAXN).map (fun _ => 5)).set 0 4) 1 = some 12 := by
    rw [dot_one umul32 _ _ (by simpa using hpos) (by simpa using hpos)]
    simp [hpos, umul32]
  have eA := readLoop_one_unassigned ((List.range dot_harness.MAXN).map (fun _ => 3))
    [Token.sign, Token.num 4] [Token.num 4] (by simpa using hpos) rfl
  have eB := readLoop_one_assigned ((List.range dot_harness.MAXN).map (fun _ => 5))
    [Token.num 4] [] 4 (by simpa using hpos) rfl
  exact main_of_parts umul32 0 _ _ _ _ _ _ 1 _ _ _ (scanf_zu_num 1 _ (by norm_num))
    (by decide) eA eB hd

/-! ## The contract of `dot` -/

/-- C1: for every multiply function and all sequences `A`, `B` holding at least
`len` elements, `dot(A, B, len)` returns the left fold of wraparound addition,
started at `0`, over the list `[umul(A[0], B[0]), ..., umul(A[len-1], B[len-1])]`
taken in ascending index order. -/
theorem dot_is_left_fold (umul : Nat → Nat → Nat) (A B : List Nat) (len : Nat)
    (hA : len ≤ A.length) (hB : len ≤ B.length) :
    dot umul A B len =
      some (List.foldl (fun acc x => (acc + x) % 2 ^ 32) 0
        ((List.range len).map (fun i => umul (A.getD i 0) (B.getD i 0)))) := by
  rw [dot_eq_foldl umul A B len hA hB, products_eq_map_range umul A B len hA hB]
  rfl

theorem dot_is_left_fold_witness :
    (3 ≤ [1, 2, 3].length ∧ 3 ≤ [4, 5, 6].length) ∧
    dot umul32 [1, 2, 3] [4, 5, 6] 3 =
      some (List.foldl (fun acc x => (acc + x) % 2 ^ 32) 0
        ((List.range 3).map (fun i => umul32 ([1, 2, 3].getD i 0) ([4, 5, 6].getD i 0)))) :=
  ⟨by decide, dot_is_left_fold umul32 [1, 2, 3] [4, 5, 6] 3 (by decide) (by decide)⟩

/-- C2: when `umul` returns the product modulo `2 ^ 32`, `dot(A, B, len)` is the exact
sum over the natural numbers of `A[i] * B[i]` for `i < len`, reduced modulo `2 ^ 32`,
whatever the size of that sum. -/
theorem dot_eq_exact_sum_mod (umul : Nat → Nat → Nat)
    (hm : ∀ x y, umul x y = (x * y) % 2 ^ 32) (A B : List Nat) (len : Nat)
    (hA : A.length = len) (hB : B.length = len) :
    dot umul A B len =
      some ((∑ i ∈ Finset.range len, A.getD i 0 * B.getD i 0) % 2 ^ 32) :=
  dot_eq_finset_sum umul hm A B len (by omega) (by omega)

/-- The three inputs the specification lists for C2: `[0xFFFFFFFF] . [2]`, whose exact
sum exceeds `2 ^ 32 - 1`, `[1,2,3] . [4,5,6]` and `[0,0] . [0,0]`. -/
theorem dot_eq_exact_sum_mod_witness :
    (2 ^ 32 - 1 < 0xFFFFFFFF * 2 ∧ dot umul32 [0xFFFFFFFF] [2] 1 = some 0xFFFFFFFE) ∧
    dot umul32 [1, 2, 3] [4, 5, 6] 3 = some 32 ∧
    dot umul32 [0, 0] [0, 0] 2 = some 0 :=
  ⟨⟨by decide,
    (dot_eq_exact_sum_mod umul32 (fun _ _ => rfl) [0xFFFFFFFF] [2] 1 rfl rfl).trans
      (by simp [Finset.sum_range_succ])⟩,
   (dot_eq_exact_sum_mod umul32 (fun _ _ => rfl) [1, 2, 3] [4, 5, 6] 3 rfl rfl).trans
      (by simp [Finset.sum_range_succ]),
   (dot_eq_exact_sum_mod umul32 (fun _ _ => rfl) [0, 0] [0, 0] 2 rfl rfl).trans
      (by simp [Finset.sum_range_succ])⟩

/-- C3: the result of `dot` does not depend on the order of summation: for every
multiply function, all sequences `A`, `B` of length `len` and every permutation `p`
of the indices `0..len-1`, `dot` of `(A[p 0], ..., A[p (len-1)])` and
`(B[p 0], ..., B[p (len-1)])` equals `dot(A, B, len)`. -/
theorem dot_permutation_invariant (umul : Nat → Nat → Nat) (len : Nat) (A B : List Nat)
    (hA : A.length = len) (hB : B.length = len) (p : Equiv.Perm (Fin len)) :
    dot umul (List.ofFn (fun k => A.getD (p k).val 0))
        (List.ofFn (fun k => B.getD (p k).val 0)) len =
      dot umul A B len := by
  have e : dot umul A B len =
      dot umul (List.ofFn (fun k : Fin len => A.getD k.val 0))
        (List.ofFn (fun k : Fin len => B.getD k.val 0)) len := by
    rw [ofFn_getD A len hA, ofFn_getD B len hB]
  rw [e, dot_ofFn, dot_ofFn]
  have hp := (p.ofFn_comp_perm
    (fun k : Fin len => umul (A.getD k.val 0) (B.getD k.val 0))).sum_eq
  exact congrArg (fun s => some (s % 2 ^ 32)) hp

theorem dot_permutation_invariant_witness :
    ([1, 2, 3].length = 3 ∧ [4, 5, 6].length = 3) ∧
    dot umul32 (List.ofFn (fun k => [1, 2, 3].getD ((Equiv.swap (0 : Fin 3) 2) k).val 0))
        (List.ofFn (fun k => [4, 5, 6].getD ((Equiv.swap (0 : Fin 3) 2) k).val 0)) 3 =
      dot umul32 [1, 2, 3] [4, 5, 6] 3 :=
  ⟨by decide, dot_permutation_invariant umul32 3 [1, 2, 3] [4, 5, 6] rfl rfl _⟩

/-- C4: for `len = 0`, `dot` returns `0` for every `A`, `B` and every multiply
function, and makes no call to the multiply function. -/
theorem dot_len_zero (umul : Nat → Nat → Nat) (A B : List Nat) :
    dot umul A B 0 = some 0 ∧ dotRun umul A B 0 = some ⟨0, []⟩ := by
  have h : dotRun umul A B 0 = some ⟨0, []⟩ := by
    unfold dotRun
    rw [dotLoop]
    simp
  exact ⟨by rw [dot, h]; rfl, h⟩

/-- C5: when `umul` returns the product modulo `2 ^ 32` and each of the first `len`
elements of `A` is `0`, `dot(A, B, len)` returns `0` for every `B`. -/
theorem dot_zero_left (umul : Nat → Nat → Nat)
    (hm : ∀ x y, umul x y = (x * y) % 2 ^ 32) (A B : List Nat) (len : Nat)
    (hA : len ≤ A.length) (hB : len ≤ B.length)
    (hz : ∀ i, i < len → A[i]? = some 0) :
    dot umul A B len = some 0 := by
  rw [dot_eq_finset_sum umul hm A B len hA hB]
  have h : ∑ i ∈ Finset.range len, A.getD i 0 * B.getD i 0 = 0 := by
    apply Finset.sum_eq_zero
    intro i hi
    have hi2 : i < len := Finset.mem_range.mp hi
    simp [List.getD_eq_getElem?_getD, hz i hi2]
  rw [h]
  rfl

theorem dot_zero_left_witness :
    (2 ≤ [0, 0, 5].length ∧ 2 ≤ [7, 0xFFFFFFFF].length ∧
      ∀ i, i < 2 → [0, 0, 5][i]? = some 0) ∧
    dot umul32 [0, 0, 5] [7, 0xFFFFFFFF] 2 = some 0 :=
  have hz : ∀ i, i < 2 → [0, 0, 5][i]? = some 0 := by decide
  ⟨⟨by decide, by decide, hz⟩,
    dot_zero_left umul32 (fun _ _ => rfl) [0, 0, 5] [7, 0xFFFFFFFF] 2
      (by decide) (by decide) hz⟩

/-! ## The contract of the `dot` harness -/

/-- C6: for every input whose first token parses as a length `len > 1024`, the
harness exits with status 1, writes nothing to standard output and does not
invoke `dot`.  This holds for every numeral above 1024, however large (one above
`SIZE_MAX` is read as `SIZE_MAX`), and for every first item that `scanf` converts
to a length above 1024. -/
theorem main_rejects_oversized (umul : Nat → Nat → Nat) (len0 : Nat)
    (garbageA garbageB : Nat → Nat) :
    (∀ (n : Nat) (rest : List Token), 1024 < n →
      dot_harness.main umul len0 garbageA garbageB (Token.num n :: rest) =
        some ⟨1, "", []⟩) ∧
    (∀ (pending rest : List Token) (len : Nat),
      scanf_zu pending = (some len, rest) → 1024 < len →
      dot_harness.main umul len0 garbageA garbageB pending = some ⟨1, "", []⟩) := by
  constructor
  · intro n rest hn
    obtain ⟨len, hl, hgt⟩ := strtoul_num_large n hn
    exact main_reject umul len0 garbageA garbageB (Token.num n :: rest) rest (some len)
      (by simp only [scanf_zu, hl]) hgt
  · intro pending rest len hs hlen
    exact main_reject umul len0 garbageA garbageB pending rest (some len) hs hlen

/-- The length `1025` of the specification, the lengths `2 ^ 64` and `2 ^ 64 + 5`,
which do not fit a `size_t`, and the length `-5`, which `scanf` reads as
`2 ^ 64 - 5`: all are rejected. -/
theorem main_rejects_oversized_witness :
    (1024 < 1025 ∧ 1024 < 2 ^ 64 ∧ 1024 < 2 ^ 64 + 5 ∧
      scanf_zu [Token.neg 5, Token.num 1] = (some (2 ^ 64 - 5), [Token.num 1]) ∧
      1024 < 2 ^ 64 - 5) ∧
    dot_harness.main umul32 0 (fun _ => 0) (fun _ => 0) [Token.num 1025] =
      some ⟨1, "", []⟩ ∧
    dot_harness.main umul32 0 (fun _ => 0) (fun _ => 0) [Token.num (2 ^ 64)] =
      some ⟨1, "", []⟩ ∧
    dot_harness.main umul32 0 (fun _ => 0) (fun _ => 0)
        [Token.num (2 ^ 64 + 5), Token.num 7] = some ⟨1, "", []⟩ ∧
    dot_harness.main umul32 0 (fun _ => 0) (fun _ => 0) [Token.neg 5, Token.num 1] =
      some ⟨1, "", []⟩ :=
  have hneg : scanf_zu [Token.neg 5, Token.num 1] = (some (2 ^ 64 - 5), [Token.num 1]) := by
    simp [scanf_zu, strtoul]
  ⟨⟨by decide, by decide, by decide, hneg, by decide⟩,
    (main_rejects_oversized umul32 0 (fun _ => 0) (fun _ => 0)).1 1025 [] (by decide),
    (main_rejects_oversized umul32 0 (fun _ => 0) (fun _ => 0)).1 (2 ^ 64) [] (by decide),
    (main_rejects_oversized umul32 0 (fun _ => 0) (fun _ => 0)).1 (2 ^ 64 + 5)
      [Token.num 7] (by decide),
    (main_rejects_oversized umul32 0 (fun _ => 0) (fun _ => 0)).2
      [Token.neg 5, Token.num 1] [Token.num 1] (2 ^ 64 - 5) hneg (by decide)⟩

/-- C7: on a length `len <= 1024` followed by `len` decimal `uint32_t` values `as` and
then `len` decimal `uint32_t` values `bs`, the harness exits with status 0 and prints
the decimal digits of `dot(as, bs, len)` and one newline; it calls `dot` once, on
buffers whose first `len` slots hold `as` and `bs`. -/
theorem main_prints_dot (umul : Nat → Nat → Nat) (len0 : Nat)
    (garbageA garbageB : Nat → Nat) (len : Nat) (as bs : List Nat)
    (hlen : len ≤ 1024) (has : as.length = len) (hbs : bs.length = len)
    (ha32 : ∀ a ∈ as, a < 2 ^ 32) (hb32 : ∀ b ∈ bs, b < 2 ^ 32) :
    ∃ result A B, dot umul as bs len = some result ∧
      A.take len = as ∧ B.take len = bs ∧
      dot_harness.main umul len0 garbageA garbageB
          (Token.num len :: (as.map Token.num ++ bs.map Token.num)) =
        some ⟨0, toString result ++ "\n", [(A, B, len)]⟩ := by
  obtain ⟨result, hd, hm⟩ :=
    main_numerals umul len0 garbageA garbageB len as bs hlen has hbs ha32 hb32
  exact ⟨result, _, _, hd, List.take_left' has, List.take_left' hbs, hm⟩

theorem main_prints_dot_witness :
    (3 ≤ 1024 ∧ [1, 2, 3].length = 3 ∧ [4, 5, 6].length = 3 ∧
      (∀ a ∈ [1, 2, 3], a < 2 ^ 32) ∧ (∀ b ∈ [4, 5, 6], b < 2 ^ 32)) ∧
    ∃ result A B, dot umul32 [1, 2, 3] [4, 5, 6] 3 = some result ∧
      A.take 3 = [1, 2, 3] ∧ B.take 3 = [4, 5, 6] ∧
      dot_harness.main umul32 7 (fun _ => 9) (fun _ => 9)
          (Token.num 3 :: ([1, 2, 3].map Token.num ++ [4, 5, 6].map Token.num)) =
        some ⟨0, toString result ++ "\n", [(A, B, 3)]⟩ :=
  have ha : ∀ a ∈ [1, 2, 3], a < 2 ^ 32 := by decide
  have hb : ∀ b ∈ [4, 5, 6], b < 2 ^ 32 := by decide
  ⟨⟨by decide, rfl, rfl, ha, hb⟩,
    main_prints_dot umul32 7 (fun _ => 9) (fun _ => 9) 3 [1, 2, 3] [4, 5, 6]
      (by decide) rfl rfl ha hb⟩

/-- C8, as stated, fails: on the input `1` (a length and no value at all) and on
the input `1 x 5` (a non-numeric token where the first value should be) the harness
calls `dot` and prints a number, computed from what its buffers held. -/
theorem main_short_input_counterexample :
    dot_harness.main umul32 0 (fun _ => 3) (fun _ => 5) [Token.num 1] =
      some ⟨0, "15\n", [((List.range dot_harness.MAXN).map (fun _ => 3),
        (List.range dot_harness.MAXN).map (fun _ => 5), 1)]⟩ ∧
    dot_harness.main umul32 0 (fun _ => 3) (fun _ => 5)
        [Token.num 1, Token.junk, Token.num 5] =
      some ⟨0, "15\n", [((List.range dot_harness.MAXN).map (fun _ => 3),
        (List.range dot_harness.MAXN).map (fun _ => 5), 1)]⟩ := by
  have hd : dot umul32 ((List.range dot_harness.MAXN).map (fun _ => 3))
      ((List.range dot_harness.MAXN).map (fun _ => 5)) 1 = some 15 := by
    have hpos : 0 < dot_harness.MAXN := by decide
    rw [dot_one umul32 _ _ (by simpa using hpos) (by simpa using hpos)]
    simp [hpos, umul32]
  exact ⟨main_stuck umul32 0 _ _ [Token.num 1] [] 1 15 rfl (by decide) rfl hd,
    main_stuck umul32 0 _ _ [Token.num 1, Token.junk, Token.num 5]
      [Token.junk, Token.num 5] 1 15 rfl (by decide) rfl hd⟩

/-- C8, amended: the harness validates nothing but the length.  For every input whose
first token parses as a length `len <= 1024`, whatever follows it, the two read loops
run to their end, `dot` is called exactly once, on the two 1024-slot buffers and
`len`, its result is printed in decimal with a newline, and the exit status is 0. -/
theorem main_no_validation (umul : Nat → Nat → Nat) (len0 : Nat)
    (garbageA garbageB : Nat → Nat) (pending rest : List Token) (len : Nat)
    (hs : scanf_zu pending = (some len, rest)) (hlen : len ≤ 1024) :
    ∃ A pending2 B pending3 result,
      dot_harness.readLoop ((List.range 1024).map garbageA) len 0 rest =
        some (A, pending2) ∧
      dot_harness.readLoop ((List.range 1024).map garbageB) len 0 pending2 =
        some (B, pending3) ∧
      A.length = 1024 ∧ B.length = 1024 ∧
      dot umul A B len = some result ∧
      dot_harness.main umul len0 garbageA garbageB pending =
        some ⟨0, toString result ++ "\n", [(A, B, len)]⟩ :=
  main_accept umul len0 garbageA garbageB pending rest (some len) hs hlen

/-- The amended C8 on the inputs `1 - 4` (a lone sign where a value should be)
and `1 18446744073709551616 5` (a value that does not fit 64 bits). -/
theorem main_no_validation_witness :
    (scanf_zu [Token.num 1, Token.sign, Token.num 4] =
        (some 1, [Token.sign, Token.num 4]) ∧
      scanf_zu [Token.num 1, Token.num (2 ^ 64), Token.num 5] =
        (some 1, [Token.num (2 ^ 64), Token.num 5]) ∧ 1 ≤ 1024) ∧
    (∃ A pending2 B pending3 result,
      dot_harness.readLoop ((List.range 1024).map (fun _ => 3)) 1 0
        [Token.sign, Token.num 4] = some (A, pending2) ∧
      dot_harness.readLoop ((List.range 1024).map (fun _ => 5)) 1 0 pending2 =
        some (B, pending3) ∧
      A.length = 1024 ∧ B.length = 1024 ∧
      dot umul32 A B 1 = some result ∧
      dot_harness.main umul32 0 (fun _ => 3) (fun _ => 5)
          [Token.num 1, Token.sign, Token.num 4] =
        some ⟨0, toString result ++ "\n", [(A, B, 1)]⟩) ∧
    (∃ A pending2 B pending3 result,
      dot_harness.readLoop ((List.range 1024).map (fun _ => 3)) 1 0
        [Token.num (2 ^ 64), Token.num 5] = some (A, pending2) ∧
      dot_harness.readLoop ((List.range 1024).map (fun _ => 5)) 1 0 pending2 =
        some (B, pending3) ∧
      A.length = 1024 ∧ B.length = 1024 ∧
      dot umul32 A B 1 = some result ∧
      dot_harness.main umul32 0 (fun _ => 3) (fun _ => 5)
          [Token.num 1, Token.num (2 ^ 64), Token.num 5] =
        some ⟨0, toString result ++ "\n", [(A, B, 1)]⟩) :=
  ⟨⟨rfl, rfl, by decide⟩,
    main_no_validation umul32 0 (fun _ => 3) (fun _ => 5)
      [Token.num 1, Token.sign, Token.num 4] [Token.sign, Token.num 4] 1 rfl (by decide),
    main_no_validation umul32 0 (fun _ => 3) (fun _ => 5)
      [Token.num 1, Token.num (2 ^ 64), Token.num 5] [Token.num (2 ^ 64), Token.num 5] 1
      rfl (by decide)⟩

/-! ## Splitting the sum, and the loop invariant -/

/-- C9: the summation may be split and recombined.  For `A1`, `B1` of length `n1` and
`A2`, `B2` of length `n2`, `dot(A1 ++ A2, B1 ++ B2, n1 + n2)` is the wraparound sum
of `dot(A1, B1, n1)` and `dot(A2, B2, n2)`; hence every tree reduction of partial
sums, combined with wraparound addition in either order, equals the sequential
fold. -/
theorem dot_split_recombine (umul : Nat → Nat → Nat) (A1 B1 A2 B2 : List Nat) (n1 n2 : Nat)
    (hA1 : A1.length = n1) (hB1 : B1.length = n1)
    (hA2 : A2.length = n2) (hB2 : B2.length = n2) :
    (∃ s1 s2, dot umul A1 B1 n1 = some s1 ∧ dot umul A2 B2 n2 = some s2 ∧
      dot umul (A1 ++ A2) (B1 ++ B2) (n1 + n2) = some ((s1 + s2) % 2 ^ 32)) ∧
    ∀ t : Reduction, treeDot umul t (A1 ++ A2) (B1 ++ B2) =
      dot umul (A1 ++ A2) (B1 ++ B2) (n1 + n2) := by
  refine ⟨dot_append umul A1 B1 A2 B2 n1 n2 hA1 hB1 hA2 hB2, fun t => ?_⟩
  rw [treeDot_eq_dot umul t _ _ (by simp [hA1, hB1, hA2, hB2])]
  simp [hA1, hA2]

theorem dot_split_recombine_witness :
    ([1, 2].length = 2 ∧ [4, 5].length = 2 ∧ [3].length = 1 ∧ [6].length = 1) ∧
    (∃ s1 s2, dot umul32 [1, 2] [4, 5] 2 = some s1 ∧ dot umul32 [3] [6] 1 = some s2 ∧
      dot umul32 ([1, 2] ++ [3]) ([4, 5] ++ [6]) (2 + 1) = some ((s1 + s2) % 2 ^ 32)) ∧
    ∀ t : Reduction, treeDot umul32 t ([1, 2] ++ [3]) ([4, 5] ++ [6]) =
      dot umul32 ([1, 2] ++ [3]) ([4, 5] ++ [6]) (2 + 1) :=
  ⟨by decide, dot_split_recombine umul32 [1, 2] [4, 5] [3] [6] 2 1 rfl rfl rfl rfl⟩

/-- C10: the accumulator invariant of the loop in `dot`.  The accumulator starts at
`0`; each iteration `i < len` replaces the accumulator by
`(accumulator + umul(A[i], B[i])) mod 2 ^ 32`; so `dot(A, B, k + 1)` is
`(dot(A, B, k) + umul(A[k], B[k])) mod 2 ^ 32` for every `k < len`; and when the
index reaches `len` the accumulator is what is returned. -/
theorem dot_accumulator_invariant (umul : Nat → Nat → Nat) (A B : List Nat) (len : Nat)
    (hA : len ≤ A.length) (hB : len ≤ B.length) :
    dot umul A B 0 = some 0 ∧
    (∀ i acc calls, i < len →
      dotLoop umul A B len i acc calls =
        dotLoop umul A B len (i + 1) ((acc + umul (A.getD i 0) (B.getD i 0)) % 2 ^ 32)
          (calls ++ [(A.getD i 0, B.getD i 0)])) ∧
    (∀ k, k < len → ∃ acc, dot umul A B k = some acc ∧
      dot umul A B (k + 1) = some ((acc + umul (A.getD k 0) (B.getD k 0)) % 2 ^ 32)) ∧
    (∀ acc calls, dotLoop umul A B len len acc calls = some ⟨acc, calls⟩) := by
  refine ⟨?_, ?_, ?_, ?_⟩
  · rw [dot_eq_foldl umul A B 0 (by omega) (by omega)]
    rfl
  · intro i acc calls hi
    exact dotLoop_step umul A B len i acc calls hi hA hB
  · intro k hk
    exact dot_succ umul A B k (by omega) (by omega)
  · intro acc calls
    exact dotLoop_exit umul A B len acc calls

theorem dot_accumulator_invariant_witness :
    (3 ≤ [1, 2, 3].length ∧ 3 ≤ [4, 5, 6].length) ∧
    dot umul32 [1, 2, 3] [4, 5, 6] 0 = some 0 ∧
    (∀ i acc calls, i < 3 →
      dotLoop umul32 [1, 2, 3] [4, 5, 6] 3 i acc calls =
        dotLoop umul32 [1, 2, 3] [4, 5, 6] 3 (i + 1)
          ((acc + umul32 ([1, 2, 3].getD i 0) ([4, 5, 6].getD i 0)) % 2 ^ 32)
          (calls ++ [([1, 2, 3].getD i 0, [4, 5, 6].getD i 0)])) ∧
    (∀ k, k < 3 → ∃ acc, dot umul32 [1, 2, 3] [4, 5, 6] k = some acc ∧
      dot umul32 [1, 2, 3] [4, 5, 6] (k + 1) =
        some ((acc + umul32 ([1, 2, 3].getD k 0) ([4, 5, 6].getD k 0)) % 2 ^ 32)) ∧
    (∀ acc calls, dotLoop umul32 [1, 2, 3] [4, 5, 6] 3 3 acc calls = some ⟨acc, calls⟩) :=
  ⟨by decide, dot_accumulator_invariant umul32 [1, 2, 3] [4, 5, 6] 3 (by decide) (by decide)⟩

/-! ## Further lemmas on `dot` and on the harnesses -/

theorem zip_take_eq_map_range (A B : List Nat) (len : Nat)
    (hA : len ≤ A.length) (hB : len ≤ B.length) :
    (A.take len).zip (B.take len) =
      (List.range len).map (fun i => (A.getD i 0, B.getD i 0)) := by
  apply List.ext_getElem
  · simp [hA, hB]
  · intro i h1 h2
    have hi : i < len := by simpa using h2
    have hiA : i < A.length := by omega
    have hiB : i < B.length := by omega
    simp [List.getD_eq_getElem?_getD, List.getElem?_eq_getElem hiA,
      List.getElem?_eq_getElem hiB]

theorem dotLoop_congr (umul : Nat → Nat → Nat) (A A1 B B1 : List Nat) (len : Nat)
    (hA : ∀ i, i < len → A[i]? = A1[i]?) (hB : ∀ i, i < len → B[i]? = B1[i]?) :
    ∀ (n i acc : Nat) (calls : List (Nat × Nat)), i + n = len →
      dotLoop umul A B len i acc calls = dotLoop umul A1 B1 len i acc calls := by
  intro n
  induction n with
  | zero =>
    intro i acc calls h
    rw [dotLoop, dotLoop.eq_def umul A1]
    simp [show ¬ i < len by omega]
  | succ n ih =>
    intro i acc calls h
    have hi : i < len := by omega
    rw [dotLoop, dotLoop.eq_def umul A1]
    simp only [hi, if_true, hA i hi, hB i hi]
    cases A1[i]? with
    | none => rfl
    | some a =>
      cases B1[i]? with
      | none => rfl
      | some b => exact ih (i + 1) _ _ (by omega)

theorem dot_congr (umul : Nat → Nat → Nat) (A A1 B B1 : List Nat) (len : Nat)
    (hA : ∀ i, i < len → A[i]? = A1[i]?) (hB : ∀ i, i < len → B[i]? = B1[i]?) :
    dot umul A B len = dot umul A1 B1 len := by
  unfold dot dotRun
  rw [dotLoop_congr umul A A1 B B1 len hA hB len 0 0 [] (by omega)]

theorem readLoop_congr (len : Nat) :
    ∀ (n : Nat) (X X1 : List Nat) (i : Nat) (pending : List Token), i + n = len →
      len ≤ X.length → X.length = X1.length →
      (∀ k, k < len → X[k]? = X1[k]?) →
      ∃ Y Y1 rest, dot_harness.readLoop X len i pending = some (Y, rest) ∧
        dot_harness.readLoop X1 len i pending = some (Y1, rest) ∧
        Y.length = X.length ∧ Y1.length = X1.length ∧
        ∀ k, k < len → Y[k]? = Y1[k]? := by
  intro n
  induction n with
  | zero =>
    intro X X1 i pending h _ _ hag
    rw [dot_harness.readLoop, dot_harness.readLoop.eq_def X1]
    simp only [show ¬ i < len by omega, if_false]
    exact ⟨X, X1, pending, rfl, rfl, rfl, rfl, hag⟩
  | succ n ih =>
    intro X X1 i pending h hX hl hag
    rw [dot_harness.readLoop, dot_harness.readLoop.eq_def X1]
    simp only [show i < len by omega, show i < X.length by omega,
      show i < X1.length by omega, if_true]
    cases hs : scanf_u32 pending with
    | mk assigned rest =>
      cases assigned with
      | none => exact ih X X1 (i + 1) rest (by omega) hX hl hag
      | some v =>
        obtain ⟨Y, Y1, r, e1, e2, l1, l2, hag2⟩ :=
          ih (X.set i v) (X1.set i v) (i + 1) rest (by omega) (by simpa using hX)
            (by simpa using hl)
            (by
              intro k hk
              simp only [List.getElem?_set, hl, hag k hk])
        exact ⟨Y, Y1, r, e1, e2, by simpa using l1, by simpa using l2, hag2⟩

theorem main_total (umul : Nat → Nat → Nat) (len0 : Nat) (garbageA garbageB : Nat → Nat)
    (pending : List Token) :
    ∃ o, dot_harness.main umul len0 garbageA garbageB pending = some o := by
  cases hs : scanf_zu pending with
  | mk assigned rest =>
    by_cases hlen : dot_harness.MAXN < assigned.getD len0
    · exact ⟨_, main_reject umul len0 garbageA garbageB pending rest assigned hs hlen⟩
    · obtain ⟨A, _, B, _, result, _, _, _, _, _, hm⟩ :=
        main_accept umul len0 garbageA garbageB pending rest assigned hs (by omega)
      exact ⟨_, hm⟩

theorem main_congr (umul : Nat → Nat → Nat) (len0 : Nat)
    (garbageA garbageA1 garbageB garbageB1 : Nat → Nat)
    (pending rest : List Token) (assigned : Option Nat)
    (hs : scanf_zu pending = (assigned, rest))
    (hA : ∀ k, k < assigned.getD len0 → garbageA k = garbageA1 k)
    (hB : ∀ k, k < assigned.getD len0 → garbageB k = garbageB1 k) :
    (dot_harness.main umul len0 garbageA garbageB pending).map
        (fun o => (o.status, o.stdout)) =
      (dot_harness.main umul len0 garbageA1 garbageB1 pending).map
        (fun o => (o.status, o.stdout)) := by
  by_cases hlen : dot_harness.MAXN < assigned.getD len0
  · rw [main_reject umul len0 garbageA garbageB pending rest assigned hs hlen,
      main_reject umul len0 garbageA1 garbageB1 pending rest assigned hs hlen]
  · have hle : assigned.getD len0 ≤ dot_harness.MAXN := by omega
    have agree : ∀ (g g1 : Nat → Nat),
        (∀ k, k < assigned.getD len0 → g k = g1 k) →
        ∀ k, k < assigned.getD len0 →
          ((List.range dot_harness.MAXN).map g)[k]? =
            ((List.range dot_harness.MAXN).map g1)[k]? := by
      intro g g1 hg k hk
      simp [List.getElem?_map, List.getElem?_range (show k < dot_harness.MAXN by omega),
        hg k hk]
    obtain ⟨A, A1, p2, eA, eA1, lA, lA1, agA⟩ :=
      readLoop_congr (assigned.getD len0) (assigned.getD len0)
        ((List.range dot_harness.MAXN).map garbageA)
        ((List.range dot_harness.MAXN).map garbageA1) 0 rest (by omega)
        (by simpa using hle) (by simp) (agree garbageA garbageA1 hA)
    obtain ⟨B, B1, p3, eB, eB1, lB, lB1, agB⟩ :=
      readLoop_congr (assigned.getD len0) (assigned.getD len0)
        ((List.range dot_harness.MAXN).map garbageB)
        ((List.range dot_harness.MAXN).map garbageB1) 0 p2 (by omega)
        (by simpa using hle) (by simp) (agree garbageB garbageB1 hB)
    have lA2 : A.length = dot_harness.MAXN := by simpa using lA
    have lB2 : B.length = dot_harness.MAXN := by simpa using lB
    have hd := dot_eq_foldl umul A B (assigned.getD len0) (by omega) (by omega)
    have hd1 : dot umul A1 B1 (assigned.getD len0) =
        some ((products umul A B (assigned.getD len0)).foldl wadd 0) := by
      rw [← dot_congr umul A A1 B B1 (assigned.getD len0) agA agB, hd]
    have m : dot_harness.main umul len0 garbageA garbageB pending =
        some ⟨0, printf_u32 ((products umul A B (assigned.getD len0)).foldl wadd 0),
          [(A, B, assigned.getD len0)]⟩ := by
      simp only [dot_harness.main, hs]
      simp [hlen, eA, eB, hd]
    have m1 : dot_harness.main umul len0 garbageA1 garbageB1 pending =
        some ⟨0, printf_u32 ((products umul A B (assigned.getD len0)).foldl wadd 0),
          [(A1, B1, assigned.getD len0)]⟩ := by
      simp only [dot_harness.main, hs]
      simp [hlen, eA1, eB1, hd1]
    rw [m, m1]
    rfl

theorem products_comm (umul : Nat → Nat → Nat) (hm : ∀ x y, umul x y = umul y x)
    (A B : List Nat) (len : Nat) :
    products umul A B len = products umul B A len := by
  unfold products
  exact List.zipWith_comm_of_comm umul hm _ _

theorem vadd_getD (A A1 : List Nat) (i : Nat) (hA : i < A.length) (hA1 : i < A1.length) :
    (vadd A A1).getD i 0 = (A.getD i 0 + A1.getD i 0) % 2 ^ 32 := by
  simp [vadd, List.getD_eq_getElem?_getD, List.getElem?_zipWith,
    List.getElem?_eq_getElem hA, List.getElem?_eq_getElem hA1]

theorem mod_add_mul (a a1 b : Nat) :
    ((a + a1) % 2 ^ 32 * b) % 2 ^ 32 % 2 ^ 32 = (a * b + a1 * b) % 2 ^ 32 := by
  rw [Nat.mod_mod, Nat.mul_mod, Nat.mod_mod, ← Nat.mul_mod, Nat.add_mul]

theorem dot_vadd (umul : Nat → Nat → Nat) (hm : ∀ x y, umul x y = (x * y) % 2 ^ 32)
    (A A1 B : List Nat) (len : Nat)
    (hA : len ≤ A.length) (hA1 : len ≤ A1.length) (hB : len ≤ B.length) :
    ∃ s s1, dot umul A B len = some s ∧ dot umul A1 B len = some s1 ∧
      dot umul (vadd A A1) B len = some ((s + s1) % 2 ^ 32) := by
  refine ⟨_, _, dot_eq_finset_sum umul hm A B len hA hB,
    dot_eq_finset_sum umul hm A1 B len hA1 hB, ?_⟩
  have hV : len ≤ (vadd A A1).length := by
    simp [vadd, List.length_zipWith]
    omega
  rw [dot_eq_sum umul _ B len hV hB, products_eq_map_range umul _ B len hV hB,
    sum_map_range_mod _ (fun i => A.getD i 0 * B.getD i 0 + A1.getD i 0 * B.getD i 0) len,
    Finset.sum_add_distrib]
  · congr 1
    omega
  · intro i hi
    simp only [vadd_getD A A1 i (show i < A.length by omega) (show i < A1.length by omega), hm]
    exact mod_add_mul _ _ _

theorem dotLoop_out_of_bounds (umul : Nat → Nat → Nat) (A B : List Nat) (len : Nat)
    (hshort : A.length < len ∨ B.length < len) :
    ∀ (n i acc : Nat) (calls : List (Nat × Nat)), i + n = len →
      i ≤ A.length → i ≤ B.length →
      dotLoop umul A B len i acc calls = none := by
  intro n
  induction n with
  | zero =>
    intro i acc calls h hiA hiB
    omega
  | succ n ih =>
    intro i acc calls h hiA hiB
    rw [dotLoop]
    simp only [show i < len by omega, if_true]
    by_cases hA : i < A.length
    · by_cases hB : i < B.length
      · simp only [List.getElem?_eq_getElem hA, List.getElem?_eq_getElem hB]
        exact ih (i + 1) _ _ (by omega) (by omega) (by omega)
      · simp [List.getElem?_eq_none (show B.length ≤ i by omega)]
    · simp [List.getElem?_eq_none (show A.length ≤ i by omega)]

theorem dot_isSome_iff (umul : Nat → Nat → Nat) (A B : List Nat) (len : Nat) :
    (∃ r, dot umul A B len = some r) ↔ len ≤ A.length ∧ len ≤ B.length := by
  constructor
  · rintro ⟨r, hr⟩
    by_contra hc
    have hshort : A.length < len ∨ B.length < len := by omega
    have hn := dotLoop_out_of_bounds umul A B len hshort len 0 0 [] (by omega)
      (by omega) (by omega)
    simp [dot, dotRun, hn] at hr
  · rintro ⟨hA, hB⟩
    exact ⟨_, dot_eq_foldl umul A B len hA hB⟩

theorem readLoop_out_of_bounds (len : Nat) :
    ∀ (n : Nat) (X : List Nat) (i : Nat) (pending : List Token), i + n = len →
      X.length < len → i ≤ X.length →
      dot_harness.readLoop X len i pending = none := by
  intro n
  induction n with
  | zero =>
    intro X i pending h hX hi
    omega
  | succ n ih =>
    intro X i pending h hX hi
    rw [dot_harness.readLoop]
    simp only [show i < len by omega, if_true]
    by_cases hiX : i < X.length
    · simp only [hiX, if_true]
      cases hs : scanf_u32 pending with
      | mk assigned rest =>
        cases assigned with
        | none => exact ih X (i + 1) rest (by omega) hX (by omega)
        | some v =>
          exact ih (X.set i v) (i + 1) rest (by omega) (by simpa using hX)
            (by simpa using hiX)
    · simp [hiX]

theorem readLoop_isSome_iff (X : List Nat) (len : Nat) (pending : List Token) :
    (∃ Y rest, dot_harness.readLoop X len 0 pending = some (Y, rest)) ↔ len ≤ X.length := by
  constructor
  · rintro ⟨Y, rest, hr⟩
    by_contra hc
    rw [readLoop_out_of_bounds len len X 0 pending (by omega) (by omega) (by omega)] at hr
    exact Option.noConfusion hr
  · intro hX
    obtain ⟨Y, rest, e, _⟩ := readLoop_total len len X 0 pending (by omega) hX
    exact ⟨Y, rest, e⟩

/-! ## Totality, call order and the `umul` harness -/

/-- C11: `dot` signals no error and always returns.  On arrays holding at least `len`
elements, whatever their values and whatever the multiply function, the loop started
at any index `i <= len` ends after exactly `len - i` iterations (one call to `umul`
each), so `dot` ends after exactly `len`, and the value returned is below `2 ^ 32`. -/
theorem dot_always_returns (umul : Nat → Nat → Nat) (A B : List Nat) (len : Nat)
    (hA : len ≤ A.length) (hB : len ≤ B.length) :
    (∃ r, dotRun umul A B len = some r ∧ dot umul A B len = some r.dot_product ∧
      r.dot_product < 2 ^ 32 ∧ r.calls.length = len) ∧
    ∀ i acc calls, i ≤ len →
      ∃ r, dotLoop umul A B len i acc calls = some r ∧
        r.calls.length = calls.length + (len - i) := by
  constructor
  · refine ⟨_, dotRun_eq umul A B len hA hB, dot_eq_foldl umul A B len hA hB, ?_, ?_⟩
    · show (products umul A B len).foldl wadd 0 < 2 ^ 32
      rw [foldl_wadd _ 0 (by norm_num)]
      exact Nat.mod_lt _ (by norm_num)
    · simp [hA, hB]
  · intro i acc calls hi
    refine ⟨_, dotLoop_eq umul A B len (len - i) i acc calls (by omega) hA hB, ?_⟩
    simp
    omega

theorem dot_always_returns_witness :
    (1 ≤ [0xFFFFFFFF, 7].length ∧ 1 ≤ [0xFFFFFFFF].length) ∧
    (∃ r, dotRun umul32 [0xFFFFFFFF, 7] [0xFFFFFFFF] 1 = some r ∧
      dot umul32 [0xFFFFFFFF, 7] [0xFFFFFFFF] 1 = some r.dot_product ∧
      r.dot_product < 2 ^ 32 ∧ r.calls.length = 1) ∧
    ∀ i acc calls, i ≤ 1 →
      ∃ r, dotLoop umul32 [0xFFFFFFFF, 7] [0xFFFFFFFF] 1 i acc calls = some r ∧
        r.calls.length = calls.length + (1 - i) :=
  ⟨by decide,
    dot_always_returns umul32 [0xFFFFFFFF, 7] [0xFFFFFFFF] 1 (by decide) (by decide)⟩

/-- C12: on two decimal `uint32_t` values `x` and `y`, the `umul` harness prints the
decimal digits of `umul(x, y)` and one newline, calls `umul` exactly once, with the
arguments `(x, y)` in that order, and exits with status 0. -/
theorem umul_main_prints (umul : Nat → Nat → Nat) (x0 y0 x y : Nat)
    (hx : x < 2 ^ 32) (hy : y < 2 ^ 32) :
    umul_harness.main umul x0 y0 [Token.num x, Token.num y] =
      ⟨0, toString (umul x y) ++ "\n", [(x, y)]⟩ := by
  simp only [umul_harness.main, scanf_u32_u32, scanf_u32_num x _ hx, scanf_u32_num y _ hy,
    printf_u32, Option.getD_some]

theorem umul_main_prints_witness :
    (0xFFFFFFFF < 2 ^ 32 ∧ 2 < 2 ^ 32) ∧
    umul_harness.main umul32 5 6 [Token.num 0xFFFFFFFF, Token.num 2] =
      ⟨0, toString (umul32 0xFFFFFFFF 2) ++ "\n", [(0xFFFFFFFF, 2)]⟩ :=
  ⟨by decide, umul_main_prints umul32 5 6 0xFFFFFFFF 2 (by decide) (by decide)⟩

/-- C13: `dot` calls `umul` exactly once per index, in ascending index order: the
recorded calls of `dot(A, B, len)` are `[(A[0], B[0]), ..., (A[len-1], B[len-1])]`,
`len` of them, with `A[i]` the first argument and `B[i]` the second. -/
theorem dot_call_trace (umul : Nat → Nat → Nat) (A B : List Nat) (len : Nat)
    (hA : len ≤ A.length) (hB : len ≤ B.length) :
    ∃ r, dotRun umul A B len = some r ∧
      r.calls = (List.range len).map (fun i => (A.getD i 0, B.getD i 0)) ∧
      r.calls.length = len := by
  refine ⟨_, dotRun_eq umul A B len hA hB, zip_take_eq_map_range A B len hA hB, ?_⟩
  simp [hA, hB]

theorem dot_call_trace_witness :
    (3 ≤ [1, 2, 3].length ∧ 3 ≤ [4, 5, 6].length) ∧
    ∃ r, dotRun umul32 [1, 2, 3] [4, 5, 6] 3 = some r ∧
      r.calls = (List.range 3).map (fun i => ([1, 2, 3].getD i 0, [4, 5, 6].getD i 0)) ∧
      r.calls.length = 3 :=
  ⟨by decide, dot_call_trace umul32 [1, 2, 3] [4, 5, 6] 3 (by decide) (by decide)⟩

/-! ## Implicit properties -/

/-- C14: the result of `dot` depends only on the first `len` elements of each array:
arrays that agree at every index below `len` give the same result.  Consequently
the exit status and the output of the `dot` harness do not depend on what slots
`len..1023` of its two buffers held at the start. -/
theorem dot_depends_on_first_len (umul : Nat → Nat → Nat) (len : Nat)
    (A A1 B B1 : List Nat)
    (hA : ∀ i, i < len → A[i]? = A1[i]?) (hB : ∀ i, i < len → B[i]? = B1[i]?) :
    dot umul A B len = dot umul A1 B1 len ∧
    ∀ (len0 : Nat) (garbageA garbageA1 garbageB garbageB1 : Nat → Nat)
      (rest : List Token),
      (∀ k, k < len → garbageA k = garbageA1 k) →
      (∀ k, k < len → garbageB k = garbageB1 k) →
      (dot_harness.main umul len0 garbageA garbageB (Token.num len :: rest)).map
          (fun o => (o.status, o.stdout)) =
        (dot_harness.main umul len0 garbageA1 garbageB1 (Token.num len :: rest)).map
          (fun o => (o.status, o.stdout)) := by
  refine ⟨dot_congr umul A A1 B B1 len hA hB, ?_⟩
  intro len0 garbageA garbageA1 garbageB garbageB1 rest hgA hgB
  obtain ⟨v, hv, hle⟩ := strtoul_num_le len
  exact main_congr umul len0 garbageA garbageA1 garbageB garbageB1 (Token.num len :: rest)
    rest (some v) (by simp only [scanf_zu, hv])
    (fun k hk => hgA k (by simp only [Option.getD_some] at hk; omega))
    (fun k hk => hgB k (by simp only [Option.getD_some] at hk; omega))

theorem dot_depends_on_first_len_witness :
    ((∀ i, i < 2 → [1, 2, 3][i]? = [1, 2, 9, 9][i]?) ∧
      (∀ i, i < 2 → [4, 5][i]? = [4, 5, 8][i]?)) ∧
    dot umul32 [1, 2, 3] [4, 5] 2 = dot umul32 [1, 2, 9, 9] [4, 5, 8] 2 ∧
    ∀ (len0 : Nat) (garbageA garbageA1 garbageB garbageB1 : Nat → Nat)
      (rest : List Token),
      (∀ k, k < 2 → garbageA k = garbageA1 k) →
      (∀ k, k < 2 → garbageB k = garbageB1 k) →
      (dot_harness.main umul32 len0 garbageA garbageB (Token.num 2 :: rest)).map
          (fun o => (o.status, o.stdout)) =
        (dot_harness.main umul32 len0 garbageA1 garbageB1 (Token.num 2 :: rest)).map
          (fun o => (o.status, o.stdout)) :=
  have hA : ∀ i, i < 2 → [1, 2, 3][i]? = [1, 2, 9, 9][i]? := by decide
  have hB : ∀ i, i < 2 → [4, 5][i]? = [4, 5, 8][i]? := by decide
  ⟨⟨hA, hB⟩, dot_depends_on_first_len umul32 2 [1, 2, 3] [1, 2, 9, 9] [4, 5] [4, 5, 8] hA hB⟩

/-- C15: every array access is in bounds.  An access outside an array makes the
embedding return `none`; the `dot` harness never does, on any input.  If execution
passes the check `len <= 1024`, the two read loops and `dot` run on buffers of
`MAXN = 1024 >= len` slots and all succeed.  A read loop over `len` indices
succeeds exactly on arrays of at least `len` slots, and `dot` succeeds exactly on
arrays of at least `len` elements, with the same result on their first `len`
elements alone: no index `i >= len` is read or written. -/
theorem accesses_in_bounds (umul : Nat → Nat → Nat) :
    (∀ (len0 : Nat) (garbageA garbageB : Nat → Nat) (pending : List Token),
      ∃ o, dot_harness.main umul len0 garbageA garbageB pending = some o) ∧
    (∀ (len0 : Nat) (garbageA garbageB : Nat → Nat) (pending rest : List Token)
      (assigned : Option Nat),
      scanf_zu pending = (assigned, rest) → assigned.getD len0 ≤ 1024 →
      ∃ A pending2 B pending3 result,
        dot_harness.readLoop ((List.range dot_harness.MAXN).map garbageA)
          (assigned.getD len0) 0 rest = some (A, pending2) ∧
        dot_harness.readLoop ((List.range dot_harness.MAXN).map garbageB)
          (assigned.getD len0) 0 pending2 = some (B, pending3) ∧
        assigned.getD len0 ≤ dot_harness.MAXN ∧
        A.length = dot_harness.MAXN ∧ B.length = dot_harness.MAXN ∧
        dot umul A B (assigned.getD len0) = some result) ∧
    (∀ (X : List Nat) (len : Nat) (pending : List Token),
      (∃ Y rest, dot_harness.readLoop X len 0 pending = some (Y, rest)) ↔
        len ≤ X.length) ∧
    (∀ (A B : List Nat) (len : Nat),
      (∃ r, dot umul A B len = some r) ↔ len ≤ A.length ∧ len ≤ B.length) ∧
    (∀ (A B : List Nat) (len : Nat), len ≤ A.length → len ≤ B.length →
      dot umul (A.take len) (B.take len) len = dot umul A B len) := by
  refine ⟨main_total umul, ?_, readLoop_isSome_iff, dot_isSome_iff umul, ?_⟩
  · intro len0 garbageA garbageB pending rest assigned hs hlen
    obtain ⟨A, p2, B, p3, result, eA, eB, lA, lB, hd, _⟩ :=
      main_accept umul len0 garbageA garbageB pending rest assigned hs hlen
    exact ⟨A, p2, B, p3, result, eA, eB, hlen, lA, lB, hd⟩
  · intro A B len hA hB
    exact (dot_take umul A B len hA hB).symm

/-- The checks of C15 at work: a run of the harness on `2 1 2 3 4`, `dot` on arrays
of exactly `len` elements, and `dot` on an array that is one element short. -/
theorem accesses_in_bounds_witness :
    (∃ o, dot_harness.main umul32 0 (fun _ => 0) (fun _ => 0)
      ([2, 1, 2, 3, 4].map Token.num) = some o) ∧
    (∃ r, dot umul32 [1, 2] [3, 4] 2 = some r) ∧
    ¬ (∃ r, dot umul32 [1, 2] [3] 2 = some r) :=
  ⟨(accesses_in_bounds umul32).1 0 (fun _ => 0) (fun _ => 0) _,
   ((accesses_in_bounds umul32).2.2.2.1 [1, 2] [3, 4] 2).mpr ⟨by decide, by decide⟩,
   fun h => absurd (((accesses_in_bounds umul32).2.2.2.1 [1, 2] [3] 2).mp h).2 (by decide)⟩

/-- C16: `dot` is symmetric in its two sequences when the multiply function is
commutative: `dot(A, B, len) = dot(B, A, len)`. -/
theorem dot_symmetric (umul : Nat → Nat → Nat) (hm : ∀ x y, umul x y = umul y x)
    (A B : List Nat) (len : Nat) (hA : A.length = len) (hB : B.length = len) :
    dot umul A B len = dot umul B A len := by
  rw [dot_eq_foldl umul A B len (by omega) (by omega),
    dot_eq_foldl umul B A len (by omega) (by omega), products_comm umul hm A B len]

theorem dot_symmetric_witness :
    ((∀ x y, umul32 x y = umul32 y x) ∧ [1, 2, 3].length = 3 ∧ [4, 5, 6].length = 3) ∧
    dot umul32 [1, 2, 3] [4, 5, 6] 3 = dot umul32 [4, 5, 6] [1, 2, 3] 3 :=
  have hm : ∀ x y, umul32 x y = umul32 y x := fun x y => by
    unfold umul32
    rw [Nat.mul_comm]
  ⟨⟨hm, rfl, rfl⟩, dot_symmetric umul32 hm [1, 2, 3] [4, 5, 6] 3 rfl rfl⟩

/-- C17: with `umul` the product modulo `2 ^ 32`, `dot` is additive in its first
argument modulo `2 ^ 32`: for `A`, `A'`, `B` of length `len`,
`dot(A (+) A', B, len) = (dot(A, B, len) + dot(A', B, len)) mod 2 ^ 32`, where
`(A (+) A')[i] = (A[i] + A'[i]) mod 2 ^ 32`. -/
theorem dot_additive_left (umul : Nat → Nat → Nat)
    (hm : ∀ x y, umul x y = (x * y) % 2 ^ 32) (A A1 B : List Nat) (len : Nat)
    (hA : A.length = len) (hA1 : A1.length = len) (hB : B.length = len) :
    ∃ s s1, dot umul A B len = some s ∧ dot umul A1 B len = some s1 ∧
      dot umul (vadd A A1) B len = some ((s + s1) % 2 ^ 32) :=
  dot_vadd umul hm A A1 B len (by omega) (by omega) (by omega)

theorem dot_additive_left_witness :
    ([0xFFFFFFFF, 2].length = 2 ∧ [1, 3].length = 2 ∧ [7, 5].length = 2) ∧
    ∃ s s1, dot umul32 [0xFFFFFFFF, 2] [7, 5] 2 = some s ∧
      dot umul32 [1, 3] [7, 5] 2 = some s1 ∧
      dot umul32 (vadd [0xFFFFFFFF, 2] [1, 3]) [7, 5] 2 = some ((s + s1) % 2 ^ 32) :=
  ⟨by decide,
    dot_additive_left umul32 (fun _ _ => rfl) [0xFFFFFFFF, 2] [1, 3] [7, 5] 2 rfl rfl rfl⟩

end Project1
